import Mathlib

/-!
Verification of the Verbum6 document question-answering core against its
specification.  The development shallowly embeds the two central source
files:

* `text_chunker.py` (`TextChunker.split_into_chunks`, `process_batch`,
  `find_boundary`), and
* `question_answerer.py` (`QuestionAnswerer.find_relevant_chunks`,
  `extract_fallback_answer`, `analyze_document`, `answer_question`).

Python strings are modelled as `List Char`, Python exceptions as an
explicit `Except PyErr` result, and the floating point scores and
confidences as exact fractions (`Frac`, an integer numerator over a
positive integer denominator compared by cross multiplication); the
float literals `0.2`, `0.3`, `0.95`, ... of the source are mapped to the
corresponding exact fractions.  The external embedding model is
abstracted as the row of base cosine-similarity scores it would yield,
and the external neural QA pipeline as an oracle function passed to
`answer_question`.
-/

/-- Python exception kinds reachable in the embedded code. -/
inductive PyErr where
  | valueError
  | zeroDivisionError
  | indexError
  | typeError
deriving DecidableEq, Repr

/-- Characters treated as whitespace by Python `str.strip`, `str.split` and `\s`. -/
def pyWs (c : Char) : Bool :=
  c = ' ' ∨ c = '\t' ∨ c = '\n' ∨ c = '\r' ∨ c = '\x0b' ∨ c = '\x0c'

/-- Python `str.strip()`: drop leading and trailing whitespace. -/
def pyStrip (l : List Char) : List Char :=
  ((l.dropWhile pyWs).reverse.dropWhile pyWs).reverse

/-- Python slice `l[s:e]` for `0 ≤ s ≤ e` (an empty list when `e ≤ s`). -/
def listSlice (l : List Char) (s e : Nat) : List Char :=
  (l.drop s).take (e - s)

/-- Sentence-terminal characters searched for by `TextChunker.find_boundary`. -/
def terminalChar (c : Char) : Bool :=
  c = '.' ∨ c = '!' ∨ c = '?' ∨ c = '\n'

/-- Index sequence `end, end-1, ..., lo+1` scanned by Python
`range(end, lo, -1)`. -/
def boundaryScan (e lo : Nat) : List Nat :=
  (List.range (e - lo)).map (fun k => e - k)

/-- Embedding of `TextChunker.find_boundary(text, end, start)`: walk back from
`end` (at most 50 characters, never past `start`) to the first position right
after a sentence-terminal character, defaulting to `end`. -/
def find_boundary (text : List Char) (e s : Nat) : Nat :=
  match (boundaryScan e (max (e - 50) s)).find? (fun i =>
      match text[i - 1]? with
      | some c => terminalChar c
      | none => false) with
  | some i => i
  | none => e

/-- Shared per-start chunk computation of `TextChunker.process_batch`: clip
the naive end to the text, move it to a sentence boundary when not at the end
of the text, slice, strip, and keep only chunks of at least 100 characters.
The parameter `t` is the text slice the batch works on (`text[:batch_end]`
in the source) and `L` the full text length. -/
def chunkFrom (csize : Nat) (t : List Char) (L s : Nat) : Option (List Char × Nat) :=
  if L ≤ s then none
  else
    let e0 := min (s + csize) L
    let e := if e0 < L then find_boundary t e0 s else e0
    let c := pyStrip (listSlice t s e)
    if c.length ≠ 0 ∧ 100 ≤ c.length then some (c, e) else none

/-- Maximum of a list of naturals, `0` on the empty list (Python `max` raises
there, but `process_batch` is only ever called on non-empty batches). -/
def listMax0 : List Nat → Nat
  | [] => 0
  | a :: l => max a (listMax0 l)

/-- Chunker configuration mirroring the `TextChunker` constructor fields. -/
structure ChunkerConfig where
  chunk_size : Nat
  overlap : Nat
  max_chunks : Nat
  batch_size : Nat
deriving DecidableEq, Repr

/-- Embedding of `TextChunker.process_batch(text, start_positions, text_length)`:
the batch precomputes `text[:batch_end]` and maps every start position to its
kept chunk (with its end offset), dropping starts past the end of the text or
yielding chunks shorter than 100 characters. -/
def process_batch (cfg : ChunkerConfig) (text : List Char) (starts : List Nat)
    (L : Nat) : List (List Char × Nat) :=
  starts.filterMap (fun s =>
    chunkFrom cfg.chunk_size (text.take (min (listMax0 starts + cfg.chunk_size) L)) L s)

/-- Batch-free reference computation for one start position, used to state
that batching is inert: identical to the body of `process_batch` with the
full text in place of the batch slice. -/
def chunkAt (csize : Nat) (text : List Char) (s : Nat) : Option (List Char) :=
  (chunkFrom csize text text.length s).map Prod.fst

/-- Start offsets `0, step, 2·step, …` below `L` (Python `range(0, L, step)`
for positive `step`). -/
def natRange0 (L step : Nat) : List Nat :=
  (List.range ((L + step - 1) / step)).map (fun k => k * step)

/-- Start offsets used by `split_into_chunks` when `overlap < chunk_size`. -/
def startsOf (csize ov L : Nat) : List Nat :=
  natRange0 L (csize - ov)

/-- Split a list into consecutive groups of `n + 1` elements, with explicit
fuel (instantiated with the list length) to keep the recursion structural.
This models the slicing `starts[batch_idx : batch_idx + batch_size]` of the
source's batch loop. -/
def chunksOfAux (n : Nat) : Nat → List Nat → List (List Nat)
  | 0, _ => []
  | _, [] => []
  | fuel + 1, x :: xs => ((x :: xs).take (n + 1)) :: chunksOfAux n fuel ((x :: xs).drop (n + 1))

/-- Consecutive batches of `n + 1` start positions. -/
def chunksOfPos (n : Nat) (l : List Nat) : List (List Nat) :=
  chunksOfAux n l.length l

/-- Batch loop of `split_into_chunks`: extend the accumulated chunk list by
each processed batch, stopping early once `max_chunks` chunks have been
collected. -/
def runBatches (cfg : ChunkerConfig) (text : List Char) (L : Nat) :
    List (List Nat) → List (List Char) → List (List Char)
  | [], acc => acc
  | b :: bs, acc =>
    let acc2 := acc ++ (process_batch cfg text b L).map Prod.fst
    if cfg.max_chunks ≤ acc2.length then acc2 else runBatches cfg text L bs acc2

/-- Embedding of `TextChunker.split_into_chunks(text)`.  The source computes
`range(0, text_length, chunk_size - overlap)` — a `ValueError` when the step
is zero and an empty start list when it is negative — then
`(len(starts) + batch_size - 1) // batch_size`, a `ZeroDivisionError` when
`batch_size` is zero, then runs the batch loop and finally truncates to
`max_chunks`. -/
def split_into_chunks (cfg : ChunkerConfig) (text : List Char) :
    Except PyErr (List (List Char)) :=
  if cfg.chunk_size = cfg.overlap then Except.error PyErr.valueError
  else
    let starts := if cfg.chunk_size < cfg.overlap then []
      else startsOf cfg.chunk_size cfg.overlap text.length
    if cfg.batch_size = 0 then Except.error PyErr.zeroDivisionError
    else
      Except.ok ((runBatches cfg text text.length
        (chunksOfPos (cfg.batch_size - 1) starts) []).take cfg.max_chunks)

/-! ## Exact fractions standing in for the source's floating point scores -/

/-- Exact fraction with a positive denominator, modelling the real-valued
scores and confidences of the source.  Comparisons are by cross
multiplication, so equal values with different representations compare
equal, matching value comparison on floats. -/
structure Frac where
  num : Int
  den : Int
  pos : 0 < den

/-- Value order on fractions (cross multiplication). -/
def Frac.lt (a b : Frac) : Prop := a.num * b.den < b.num * a.den

/-- Value equality on fractions (cross multiplication). -/
def Frac.eqv (a b : Frac) : Prop := a.num * b.den = b.num * a.den

/-- Fraction multiplication. -/
def Frac.mul (a b : Frac) : Frac :=
  ⟨a.num * b.num, a.den * b.den, Int.mul_pos a.pos b.pos⟩

instance : DecidableRel Frac.lt := fun a b =>
  inferInstanceAs (Decidable (a.num * b.den < b.num * a.den))

instance : DecidableRel Frac.eqv := fun a b =>
  inferInstanceAs (Decidable (a.num * b.den = b.num * a.den))

/-- Fraction with value `0`. -/
def frac0 : Frac := ⟨0, 1, by decide⟩

/-- Fraction `n / d` for a positive literal denominator. -/
def frac (n d : Int) (h : 0 < d) : Frac := ⟨n, d, h⟩

/-! ## Relevance ranker (`QuestionAnswerer.find_relevant_chunks`) -/

/-- Python `str.lower()` (ASCII case folding suffices for the embedded data). -/
def lowerL (l : List Char) : List Char := l.map Char.toLower

/-- Python substring test `needle in hay`. -/
def listContains (hay needle : List Char) : Bool :=
  (List.range (hay.length + 1)).any (fun i => needle == (hay.drop i).take needle.length)

/-- Python `str.split()` with no argument: split on whitespace runs,
discarding empty words. -/
def pySplit (l : List Char) : List (List Char) :=
  (l.splitOnP pyWs).filter (fun w => w ≠ [])

/-- Keyword set of a question: distinct lowercased words of length above 3
(`set(word.lower() for word in question.split() if len(word) > 3)`). -/
def question_keywords (q : List Char) : List (List Char) :=
  (((pySplit q).map lowerL).filter (fun w => 3 < w.length)).dedup

/-- Number of question keywords lexically present in a chunk
(`sum(1 for word in question_words if word in chunk_lower)`). -/
def kwCount (q chunk : List Char) : Nat :=
  (question_keywords q).countP (fun w => listContains (lowerL chunk) w)

/-- Boost factor `1 + 0.2 * keyword_matches` of the source, as the exact
fraction `(5 + k) / 5`. -/
def boostFactor (k : Nat) : Frac :=
  ⟨5 + (k : Int), 5, by decide⟩

/-- Final relevance score of chunk `i`: the base cosine-similarity score
(row `cosine_similarity(question_embedding, chunk_embeddings)[0]`, abstracted
as the input list `bs`) times the keyword boost. -/
def scoreFun (q : List Char) (bs : List Frac) (cs : List (List Char)) (i : Nat) : Frac :=
  (bs.getD i frac0).mul (boostFactor (kwCount q (cs.getD i [])))

/-- Comparison used to model `np.argsort` on the score array: ascending by
value with ties by original index ascending (numpy's sorts are deterministic;
its insertion sort on small arrays and its `stable` kind behave exactly
like this). -/
def keyLe (s : Nat → Frac) (i j : Nat) : Prop :=
  Frac.lt (s i) (s j) ∨ (Frac.eqv (s i) (s j) ∧ i ≤ j)

instance (s : Nat → Frac) : DecidableRel (keyLe s) := fun i j =>
  inferInstanceAs (Decidable (_ ∨ _))

/-- Strict version of `keyLe`: strictly smaller score, or an equal score and
a strictly smaller index.  On a duplicate-free index list `keyLe` together
with distinctness yields `keyLt`. -/
def keyLt (s : Nat → Frac) (i j : Nat) : Prop :=
  Frac.lt (s i) (s j) ∨ (Frac.eqv (s i) (s j) ∧ i < j)

/-- Ascending argsort of the scores of indices `0, …, n-1`
(`np.argsort(scores)`). -/
def argsortAsc (s : Nat → Frac) (n : Nat) : List Nat :=
  (List.range n).insertionSort (keyLe s)

/-- Python slice `l[-k:]` (the whole list when `k = 0`, since `-0 == 0`). -/
def pyLastSlice (k : Nat) (l : List Nat) : List Nat :=
  if k = 0 then l else l.drop (l.length - k)

/-- Index order produced by `np.argsort(scores)[-top_k:][::-1]`. -/
def topIndices (q : List Char) (bs : List Frac) (cs : List (List Char)) (k : Nat) : List Nat :=
  (pyLastSlice k (argsortAsc (scoreFun q bs cs) cs.length)).reverse

/-- Helper for `collapseWs`: the flag records whether the previous character
was whitespace (so a whitespace run emits exactly one space, at its start). -/
def collapseWsAux : Bool → List Char → List Char
  | _, [] => []
  | prevWs, c :: cs =>
    if pyWs c then
      if prevWs then collapseWsAux true cs else ' ' :: collapseWsAux true cs
    else c :: collapseWsAux false cs

/-- Whitespace-run collapsing of `re.sub(r'\s+', ' ', chunk)`: every maximal
whitespace run becomes a single space. -/
def collapseWs (l : List Char) : List Char := collapseWsAux false l

/-- Characters kept by `re.sub(r'[^a-zA-Z0-9\s.,!?-]', '', chunk)`. -/
def keepCh (c : Char) : Bool :=
  c.isAlphanum ∨ pyWs c ∨ c = '.' ∨ c = ',' ∨ c = '!' ∨ c = '?' ∨ c = '-'

/-- Embedding of `QuestionAnswerer.preprocess_chunk`: collapse whitespace
runs, strip, then remove characters outside `[a-zA-Z0-9\s.,!?-]`. -/
def preprocess_chunk (l : List Char) : List Char :=
  (pyStrip (collapseWs l)).filter keepCh

/-- Embedding of `QuestionAnswerer.find_relevant_chunks` given the base
cosine-similarity row `bs`: rank all chunks by boosted score and return the
cleaned top-`k` chunks in descending order. -/
def find_relevant_chunks (q : List Char) (bs : List Frac) (cs : List (List Char))
    (k : Nat) : List (List Char) :=
  (topIndices q bs cs k).map (fun i => preprocess_chunk (cs.getD i []))

/-- Strict precedence of `a` over `b` in an index list: both occur and `a`
occurs first. -/
def precedes (a b : Nat) (l : List Nat) : Prop :=
  a ∈ l ∧ b ∈ l ∧ l.indexOf a < l.indexOf b

instance precedesDec (a b : Nat) (l : List Nat) : Decidable (precedes a b l) :=
  inferInstanceAs (Decidable (_ ∧ _ ∧ _))

/-! ## Backtracking regex engine for the fallback patterns

The fallback extractor of `question_answerer.py` uses `re.search` with a
small regex subset: literals, `\s`, `\w`, character classes, greedy `+`,
`*`, `?`, ordered alternation, non-capturing and capturing groups and the
`^` anchor.  The engine below implements Python's leftmost search with
greedy backtracking in continuation-passing style; the fuel argument only
bounds recursion depth and is instantiated generously enough that it never
runs out on the embedded patterns. -/

/-- Regex abstract syntax for the patterns appearing in the source. -/
inductive RE where
  | eps
  | lit (c : Char)
  | cls (p : Char → Bool)
  | seq (a b : RE)
  | alt (a b : RE)
  | star (a : RE)
  | group (idx : Nat) (a : RE)
  | bol

/-- Character comparison, case-insensitively under `re.IGNORECASE`. -/
def chEq (ic : Bool) (a b : Char) : Bool :=
  if ic then a.toLower == b.toLower else a == b

/-- Class membership, case-insensitively under `re.IGNORECASE`. -/
def clsMatch (ic : Bool) (p : Char → Bool) (c : Char) : Bool :=
  if ic then p c ∨ p c.toLower ∨ p c.toUpper else p c

/-- Core matcher: `mc ic input fuel r pos caps k` tries to match `r` at
position `pos` with capture list `caps`, calling the continuation `k` on
success; backtracking is by returning `none`.  Greedy `star` tries one more
body iteration first and refuses empty-width iterations. -/
def mc (ic : Bool) (input : List Char) :
    Nat → RE → Nat → List (Nat × Nat × Nat) →
    (Nat → List (Nat × Nat × Nat) → Option (Nat × List (Nat × Nat × Nat))) →
    Option (Nat × List (Nat × Nat × Nat))
  | 0, _, _, _, _ => none
  | fuel + 1, r, pos, caps, k =>
    match r with
    | RE.eps => k pos caps
    | RE.bol => if pos = 0 then k pos caps else none
    | RE.lit c =>
      match input[pos]? with
      | some d => if chEq ic c d then k (pos + 1) caps else none
      | none => none
    | RE.cls p =>
      match input[pos]? with
      | some d => if clsMatch ic p d then k (pos + 1) caps else none
      | none => none
    | RE.seq a b => mc ic input fuel a pos caps (fun p2 c2 => mc ic input fuel b p2 c2 k)
    | RE.alt a b =>
      match mc ic input fuel a pos caps k with
      | some res => some res
      | none => mc ic input fuel b pos caps k
    | RE.star a =>
      match mc ic input fuel a pos caps
          (fun p2 c2 => if p2 = pos then none else mc ic input fuel (RE.star a) p2 c2 k) with
      | some res => some res
      | none => k pos caps
    | RE.group i a => mc ic input fuel a pos caps (fun p2 c2 => k p2 ((i, pos, p2) :: c2))

/-- Depth bound passed to `mc`; ample for the embedded patterns. -/
def bigFuel (input : List Char) : Nat := 10 * input.length + 600

/-- Embedding of `re.search(pattern, input)`: try each start position from
the left, returning `(matchStart, matchEnd, captures)` of the first
position where the backtracking matcher succeeds. -/
def reSearch (ic : Bool) (r : RE) (input : List Char) :
    Option (Nat × Nat × List (Nat × Nat × Nat)) :=
  (List.range (input.length + 1)).findSome? (fun pos =>
    match mc ic input (bigFuel input) r pos [] (fun p c => some (p, c)) with
    | some pr => some (pos, pr.1, pr.2)
    | none => none)

/-- Text of capture group `i` (last capture wins, as in Python). -/
def groupStr (input : List Char) (caps : List (Nat × Nat × Nat)) (i : Nat) :
    Option (List Char) :=
  (caps.find? (fun t => t.1 == i)).map (fun t => listSlice input t.2.1 t.2.2)

/-- Sequence of regexes. -/
def rcat (l : List RE) : RE := l.foldr RE.seq RE.eps

/-- Literal string regex. -/
def strR (s : String) : RE := rcat (s.toList.map RE.lit)

/-- Greedy `r+`. -/
def plusR (r : RE) : RE := RE.seq r (RE.star r)

/-- Greedy `r?`. -/
def optR (r : RE) : RE := RE.alt r RE.eps

/-- Class `[\w\s-]` (Python word characters restricted to ASCII). -/
def clsWsd : RE := RE.cls (fun c => c.isAlphanum ∨ c = '_' ∨ pyWs c ∨ c = '-')

/-- Class `\s`. -/
def clsWs : RE := RE.cls pyWs

/-- Class `[A-Z]`. -/
def clsUpper : RE := RE.cls (fun c => 'A' ≤ c ∧ c ≤ 'Z')

/-- Class `[a-z]`. -/
def clsLower : RE := RE.cls (fun c => 'a' ≤ c ∧ c ≤ 'z')

/-! ## Fallback pattern matcher (`QuestionAnswerer.extract_fallback_answer`) -/

/-- Result of a successful fallback extraction. -/
structure FallbackOut where
  answer : List Char
  score : Frac

/-- Local focus/subject rule list of `extract_fallback_answer`, in source
order with the source's static confidences. -/
def focus_rules : List (RE × Frac) :=
  [ (rcat [strR ("Fifty Best Tips for "), RE.group 1 (strR ("High-Tech Startups"))],
      ⟨95, 100, by decide⟩),
    (rcat [strR ("Build Something Great!"), plusR clsWs,
        optR (rcat [strR ("Fifty Best Tips for"), plusR clsWs]),
        RE.group 1 (rcat [plusR clsWsd, strR ("Startups")])],
      ⟨9, 10, by decide⟩),
    (rcat [strR ("book provides "),
        RE.group 1 (rcat [RE.alt (strR ("guidance")) (RE.alt (strR ("tips")) (strR ("advice"))),
          RE.lit ' ',
          RE.alt (strR ("for")) (RE.alt (strR ("to")) (strR ("about"))),
          RE.lit ' ', plusR clsWsd])],
      ⟨85, 100, by decide⟩),
    (rcat [strR ("guide "), RE.alt (strR ("for")) (strR ("to")), RE.lit ' ',
        RE.group 1 (rcat [strR ("successful "), plusR clsWsd])],
      ⟨8, 10, by decide⟩),
    (rcat [strR ("focuses on "),
        RE.group 1 (rcat [plusR clsWsd,
          RE.alt (strR ("startup")) (RE.alt (strR ("business"))
            (RE.alt (strR ("company")) (strR ("enterprise")))),
          RE.star clsWsd])],
      ⟨75, 100, by decide⟩),
    (rcat [strR ("main focus is "), RE.group 1 (plusR clsWsd)], ⟨7, 10, by decide⟩),
    (rcat [strR ("book is about "), RE.group 1 (plusR clsWsd)], ⟨7, 10, by decide⟩),
    (rcat [strR ("Fifty Best Tips for "), RE.group 1 (plusR clsWsd)], ⟨6, 10, by decide⟩),
    (rcat [strR ("guide to "), RE.group 1 (plusR clsWsd)], ⟨5, 10, by decide⟩) ]

/-- Last-resort title regex of the focus branch (searched without
`re.IGNORECASE`, against the raw first candidate chunk). -/
def titleRE : RE :=
  rcat [strR ("Build Something Great!"), plusR clsWs, strR ("Fifty Best Tips for "),
    RE.group 1 (plusR clsWsd)]

/-- Capitalised `Firstname Lastname` pair of the author rules. -/
def namePairRE : RE := rcat [clsUpper, plusR clsLower, plusR clsWs, clsUpper, plusR clsLower]

/-- Local author rule list of `extract_fallback_answer`, in source order. -/
def author_rules : List RE :=
  [ rcat [RE.alt (strR ("by")) (rcat [strR ("author"), optR (RE.lit 's'), optR (RE.lit ':')]),
      plusR clsWs,
      RE.group 1 (rcat [namePairRE,
        optR (rcat [plusR clsWs, strR ("and"), plusR clsWs, namePairRE])])],
    rcat [RE.group 1 namePairRE,
      optR (rcat [plusR clsWs, strR ("and"), plusR clsWs, RE.group 2 namePairRE])] ]

/-- Answer relevance guard keywords of the focus branch. -/
def relevance_keywords : List (List Char) :=
  [ ("startup").toList, ("business").toList, ("company").toList,
    ("tips").toList, ("guide").toList ]

/-- Capitalisation `answer[0].upper() + answer[1:]`. -/
def capFirst : List Char → List Char
  | [] => []
  | c :: r => c.toUpper :: r

/-- Python `answer.replace('  ', ' ')`: left-to-right non-overlapping
replacement of double spaces by single spaces. -/
def replaceDoubleSpace : List Char → List Char
  | [] => []
  | [c] => [c]
  | a :: b :: r =>
    if a = ' ' ∧ b = ' ' then ' ' :: replaceDoubleSpace r
    else a :: replaceDoubleSpace (b :: r)

/-- Focus branch body for one candidate chunk: try each rule in order on the
cleaned chunk; a match is accepted only when the stripped group is at least
10 characters and, after double-space collapsing and capitalisation, contains
a relevance keyword — otherwise the loop continues with the next rule. -/
def tryFocusChunk (chunk : List Char) : Option FallbackOut :=
  focus_rules.findSome? (fun pr =>
    match reSearch true pr.1 (preprocess_chunk chunk) with
    | none => none
    | some m =>
      let ans := pyStrip ((groupStr (preprocess_chunk chunk) m.2.2 1).getD [])
      if 10 ≤ ans.length then
        let ans2 := capFirst (replaceDoubleSpace ans)
        if relevance_keywords.any (fun k2 => listContains (lowerL ans2) k2) then
          some ⟨ans2, pr.2⟩
        else none
      else none)

/-- Intent trigger of the focus branch
(`"focus" in q or "subject" in q or "about" in q` on the lowercased question). -/
def efaFocusCond (ql : List Char) : Bool :=
  listContains ql (("focus").toList) ∨ listContains ql (("subject").toList) ∨
    listContains ql (("about").toList)

/-- Intent trigger of the author branch. -/
def efaAuthorCond (ql : List Char) : Bool :=
  listContains ql (("author").toList) ∨ listContains ql (("who").toList)

/-- Embedding of `QuestionAnswerer.extract_fallback_answer(question, chunks)`.
In the focus branch, after the per-chunk rules fail, the source indexes
`chunks[0]` for the title fallback — an `IndexError` on an empty chunk list.
In the author branch, any rule match executes `match.lastgroup > 1`; since
the author patterns have no named groups, `lastgroup` is `None` and the
comparison with an `int` raises a `TypeError` in Python 3. -/
def extract_fallback_answer (q : List Char) (chunks : List (List Char)) :
    Except PyErr (Option FallbackOut) :=
  if efaFocusCond (lowerL q) then
    match (chunks.take 3).findSome? tryFocusChunk with
    | some fb => Except.ok (some fb)
    | none =>
      match chunks with
      | [] => Except.error PyErr.indexError
      | c0 :: _ =>
        match reSearch false titleRE c0 with
        | some m =>
          Except.ok (some ⟨pyStrip ((groupStr c0 m.2.2 1).getD []), ⟨8, 10, by decide⟩⟩)
        | none => Except.ok none
  else if efaAuthorCond (lowerL q) then
    match (chunks.take 2).findSome? (fun ch =>
        author_rules.findSome? (fun r => reSearch false r ch)) with
    | some _ => Except.error PyErr.typeError
    | none => Except.ok none
  else Except.ok none

/-! ## Document analysis and the answer synthesizer -/

/-- Mutable state of a `QuestionAnswerer` instance: the constructor's generic
pattern lists (stored as pattern strings with their confidences) and the
`_analyzed` flag set by the first `answer_question` call. -/
structure QAState where
  focus_patterns : List (List Char × Frac)
  author_patterns : List (List Char × Frac)
  analyzed : Bool

/-- Generic focus patterns installed by the constructor. -/
def initFocusPatterns : List (List Char × Frac) :=
  [ (("(?:title|subject):\\s*([\\w\\s-]+)").toList, ⟨95, 100, by decide⟩),
    (("^(?:chapter|section)\\s+\\d+[:.]\\s*([\\w\\s-]+)").toList, ⟨9, 10, by decide⟩),
    (("(?:about|discusses|covers|explains)\\s+([\\w\\s-]+)").toList, ⟨85, 100, by decide⟩),
    (("(?:guide|manual|book)\\s+(?:for|on|about)\\s+([\\w\\s-]+)").toList, ⟨8, 10, by decide⟩),
    (("(?:focuses?|focusing)\\s+on\\s+([\\w\\s-]+)").toList, ⟨75, 100, by decide⟩),
    (("main\\s+(?:topic|subject|focus)\\s+(?:is|:)\\s+([\\w\\s-]+)").toList, ⟨7, 10, by decide⟩),
    (("(?:provides|offers)\\s+([\\w\\s-]+)").toList, ⟨65, 100, by decide⟩) ]

/-- Generic author patterns installed by the constructor. -/
def initAuthorPatterns : List (List Char × Frac) :=
  [ (("(?:by|author[s]?:?)\\s+([A-Z][a-z]+(?:\\s+[A-Z][a-z]+)+)").toList, ⟨95, 100, by decide⟩),
    (("([A-Z][a-z]+\\s+[A-Z][a-z]+)(?:\\s*,\\s*(?:PhD|MD|Prof\\.?))?").toList, ⟨9, 10, by decide⟩),
    (("written\\s+by\\s+([A-Z][a-z]+(?:\\s+[A-Z][a-z]+)+)").toList, ⟨85, 100, by decide⟩) ]

/-- Fresh instance state after `QuestionAnswerer.__init__`. -/
def initQAState : QAState := ⟨initFocusPatterns, initAuthorPatterns, false⟩

/-- Characters escaped by Python 3.7+ `re.escape`. -/
def pyEscSpecial (c : Char) : Bool :=
  (("()[]\x7b\x7d?*+-|^$\\.&~# \t\n\r\x0b\x0c").toList).contains c

/-- Embedding of `re.escape`. -/
def pyEscape (l : List Char) : List Char :=
  l.foldr (fun c acc => if pyEscSpecial c then '\\' :: c :: acc else c :: acc) []

/-- Embedding of `QuestionAnswerer.analyze_document(first_chunk)`: the match
of `re.search(r'^([^.!?\n]+)', first_chunk)` is the longest nonempty prefix
free of sentence terminals; when present, its stripped and escaped text is
prepended (wrapped in `(?:...)`, confidence 0.98) to the instance's
`focus_patterns`. -/
def analyze_document (st : QAState) (first_chunk : List Char) : QAState :=
  let title := first_chunk.takeWhile (fun c => ¬ terminalChar c)
  if title = [] then st
  else
    { st with focus_patterns :=
        ((("(?:").toList ++ pyEscape (pyStrip title) ++ (")").toList,
          (⟨98, 100, by decide⟩ : Frac)) :: st.focus_patterns) }

/-- State after the `if chunks and not hasattr(self, '_analyzed')` prologue
of `answer_question`. -/
def postAnalyzeState (st : QAState) (chunks : List (List Char)) : QAState :=
  if chunks ≠ [] ∧ st.analyzed = false then
    { analyze_document st (chunks.headD []) with analyzed := true }
  else st

/-- Raw result of the external extractive QA pipeline. -/
structure NeuralOut where
  answer : List Char
  score : Frac

/-- Result dictionary of `answer_question`. -/
structure AnswerOut where
  answer : List Char
  confidence : Frac
  context : List Char

/-- Python `" ".join(l)`. -/
def joinSp (l : List (List Char)) : List Char := List.intercalate ([' ']) l

/-- Intent keywords of the fallback-first short circuit in `answer_question`. -/
def intent_words : List (List Char) :=
  [ ("focus").toList, ("subject").toList, ("about").toList, ("main").toList ]

/-- Condition `any(word in question.lower() for word in [...])`. -/
def intentCond (q : List Char) : Bool :=
  intent_words.any (fun w => listContains (lowerL q) w)

/-- Neural path of `answer_question`: build the context from all relevant
chunks, call the pipeline oracle, and on an empty-after-trim answer or a
score below 0.3 overwrite answer and score with a fallback match when one
exists.  The boolean in the result records that the neural model was
invoked. -/
def neural_branch (qa : List Char → List Char → NeuralOut) (st1 : QAState)
    (q : List Char) (relevant : List (List Char)) :
    Except PyErr (AnswerOut × QAState × Bool) :=
  let context := joinSp relevant
  let res := qa q context
  if pyStrip res.answer = [] ∨ Frac.lt res.score ⟨3, 10, by decide⟩ then
    match extract_fallback_answer q relevant with
    | Except.error e => Except.error e
    | Except.ok (some fb) => Except.ok (⟨fb.answer, fb.score, context⟩, st1, true)
    | Except.ok none => Except.ok (⟨res.answer, res.score, context⟩, st1, true)
  else Except.ok (⟨res.answer, res.score, context⟩, st1, true)

/-- Embedding of `QuestionAnswerer.answer_question`.  The oracle `qa` stands
for the extractive QA pipeline; the returned boolean records whether it was
invoked.  For an intent question the source evaluates `[chunks[0]] +
relevant_chunks` — an `IndexError` on an empty chunk list — and returns a
fallback match immediately with context `" ".join(relevant_chunks[:2])`,
skipping the neural path. -/
def answer_question (qa : List Char → List Char → NeuralOut) (st : QAState)
    (q : List Char) (bs : List Frac) (chunks : List (List Char)) :
    Except PyErr (AnswerOut × QAState × Bool) :=
  let st1 := postAnalyzeState st chunks
  let relevant := find_relevant_chunks q bs chunks 5
  if intentCond q then
    match chunks with
    | [] => Except.error PyErr.indexError
    | c0 :: _ =>
      match extract_fallback_answer q (c0 :: relevant) with
      | Except.error e => Except.error e
      | Except.ok (some fb) =>
        Except.ok (⟨fb.answer, fb.score, joinSp (relevant.take 2)⟩, st1, false)
      | Except.ok none => neural_branch qa st1 q relevant
  else neural_branch qa st1 q relevant

/-! ## Concrete data used by counterexamples and witnesses -/

/-- Sample document text for the chunker claims (between 100 and 150
characters, no edge whitespace). -/
def chunkerSampleText : List Char :=
  ("Deterministic chunking keeps every kept block within its configured bounds and drops the short tail pieces quietly").toList

/-- Fraction with value one. -/
def fracOne : Frac := ⟨1, 1, by decide⟩

/-- Question with no keyword of length above 3, for the tie claims. -/
def rankQ : List Char := ("tie").toList

/-- First ranked chunk of the tie counterexample. -/
def rankChunk0 : List Char := ("alpha one").toList

/-- Second ranked chunk of the tie counterexample. -/
def rankChunk1 : List Char := ("beta two").toList

/-- Question of the keyword-boost claims, with keyword set
`{startup, news}`. -/
def c3q : List Char := ("startup news").toList

/-- Keyword-free chunk at index 0 of the boost counterexample. -/
def c3chunkA : List Char := ("alpha beta gamma").toList

/-- Keyword-free chunk at index 1 of the boost counterexample. -/
def c3chunkB : List Char := ("delta epsilon").toList

/-- Edit of `c3chunkA` containing one additional keyword (`startup`). -/
def c3chunkA2 : List Char := ("alpha beta startup").toList

/-- Negative base cosine scores (−0.5 and −0.55) of the boost
counterexample. -/
def c3bs : List Frac := [⟨-1, 2, by decide⟩, ⟨-11, 20, by decide⟩]

/-- Nonnegative base scores (1 and 2) of the boost witness. -/
def c3wbs : List Frac := [fracOne, ⟨2, 1, by decide⟩]

/-- Keyword-free chunks of the boost witness. -/
def c3wchunks : List (List Char) := [ ("first words").toList, ("second words").toList ]

/-- Edit of the witness chunk at index 1, adding the keyword `startup`. -/
def c3wt : List Char := ("second words startup").toList

/-- Dummy neural oracle returning an empty answer with score 0.1, used by
witnesses that exercise the low-confidence path. -/
def qaLow : List Char → List Char → NeuralOut := fun _ _ => ⟨[], ⟨1, 10, by decide⟩⟩

/-- Question of the C1 witness (spec scenario), containing the intent
keywords `main` and `focus`. -/
def c1q : List Char := ("What is the main focus of this book?").toList

/-- First document chunk of the C1 witness (spec scenario). -/
def c1chunk0 : List Char :=
  ("Build Something Great! Fifty Best Tips for High-Tech Startups").toList

/-- Second document chunk of the C1 witness. -/
def c1chunk1 : List Char := ("Some other text.").toList

/-- Base scores of the C1 witness. -/
def c1bs : List Frac := [⟨9, 10, by decide⟩, ⟨1, 2, by decide⟩]

/-- Author question of the C4 failing input. -/
def c4q : List Char := ("who is the author").toList

/-- Chunk of the C4 failing input, matched by the first author rule. -/
def c4chunk : List Char := ("by John Smith of Acme").toList

/-- Question of the C6 witness, triggering no fallback branch. -/
def c6q : List Char := ("when was it written").toList

/-- Chunks of the C6 witness. -/
def c6chunks : List (List Char) :=
  [ ("Alpha beta gamma.").toList, ("Delta epsilon zeta.").toList ]

/-- Base scores of the C6 witness. -/
def c6bs : List Frac := [⟨1, 2, by decide⟩, ⟨1, 4, by decide⟩]

/-- First chunk of the C7 failing input; its opening line is the title the
document analysis extracts. -/
def c7chunk : List Char :=
  ("Amazing Histories of Lisbon Tramways! Chapter one.").toList

/-- Subject question of the C7 failing input. -/
def c7q : List Char := ("what is this book about").toList

/-- Pattern string `analyze_document` stores for `c7chunk` (the escaped
title wrapped in a non-capturing group). -/
def c7storedPattern : List Char :=
  ("(?:Amazing\\ Histories\\ of\\ Lisbon\\ Tramways)").toList

/-- Literal title of `c7chunk` that the stored pattern would match. -/
def c7title : List Char := ("Amazing Histories of Lisbon Tramways").toList

/-- Question of the C9 witness: triggers the focus intent, with keywords
(`subject`, `please`) absent from every chunk. -/
def c9q : List Char := ("subject please").toList

/-- Chunks of the C9 witness: only the chunk at index 2 matches a fallback
rule, so the pre-neural fallback call (which sees `[chunks[0]]` plus the top
two ranked chunks among its first three candidates) finds nothing while the
post-neural call does. -/
def c9chunks : List (List Char) :=
  [ ("Intro text only here.").toList,
    ("Alpha beta gamma delta.").toList,
    ("This book is about winning startup ideas today.").toList,
    ("Epsilon zeta eta.").toList,
    ("Theta iota kappa.").toList ]

/-- Strictly decreasing base scores of the C9 witness. -/
def c9bs : List Frac :=
  [ ⟨5, 1, by decide⟩, ⟨4, 1, by decide⟩, ⟨3, 1, by decide⟩,
    ⟨2, 1, by decide⟩, ⟨1, 1, by decide⟩ ]

/-! ## Lemmas about the chunker -/

theorem findq_congr {α : Type} {p q : α → Bool} :
    ∀ {l : List α}, (∀ a ∈ l, p a = q a) → l.find? p = l.find? q := by
  intro l h
  induction l with
  | nil => rfl
  | cons a l ih =>
    simp only [List.find?_cons]
    rw [h a (by simp)]
    split
    · rfl
    · exact ih (fun x hx => h x (by simp [hx]))

theorem mem_boundaryScan {e lo i : Nat} (h : i ∈ boundaryScan e lo) :
    lo < i ∧ i ≤ e := by
  unfold boundaryScan at h
  simp only [List.mem_map, List.mem_range] at h
  obtain ⟨k, hk, rfl⟩ := h
  omega

theorem find_boundary_le (text : List Char) (e s : Nat) : find_boundary text e s ≤ e := by
  unfold find_boundary
  split
  next i hi => exact (mem_boundaryScan (List.mem_of_find?_eq_some hi)).2
  next => exact Nat.le_refl e

theorem find_boundary_take (text : List Char) {m e : Nat} (s : Nat) (he : e ≤ m) :
    find_boundary (text.take m) e s = find_boundary text e s := by
  unfold find_boundary
  rw [findq_congr (fun i hi => ?_)]
  have hb := mem_boundaryScan hi
  have hlt : i - 1 < m := by omega
  rw [List.getElem?_take_of_lt hlt]

theorem listSlice_take (text : List Char) {m s e : Nat} (he : e ≤ m) :
    listSlice (text.take m) s e = listSlice text s e := by
  unfold listSlice
  rw [List.drop_take, List.take_take, Nat.min_eq_left (by omega)]

theorem le_listMax0 : ∀ {l : List Nat} {a : Nat}, a ∈ l → a ≤ listMax0 l := by
  intro l
  induction l with
  | nil => intro a h; cases h
  | cons x xs ih =>
    intro a h
    rcases List.mem_cons.1 h with rfl | h2
    · simp [listMax0]
    · have := ih h2
      simp only [listMax0]
      omega

theorem chunkFrom_take (csize : Nat) (text : List Char) {M : Nat} (s : Nat) (hs : s ≤ M) :
    chunkFrom csize (text.take (min (M + csize) text.length)) text.length s
      = chunkFrom csize text text.length s := by
  unfold chunkFrom
  by_cases hL : text.length ≤ s
  · simp [hL]
  · simp only [if_neg hL]
    have he0be : min (s + csize) text.length ≤ min (M + csize) text.length := by omega
    by_cases hlt : min (s + csize) text.length < text.length
    · simp only [if_pos hlt]
      rw [find_boundary_take text s he0be,
        listSlice_take text (le_trans (find_boundary_le text (min (s + csize) text.length) s) he0be)]
    · simp only [if_neg hlt]
      rw [listSlice_take text he0be]

theorem process_batch_map_fst (cfg : ChunkerConfig) (text : List Char) (b : List Nat) :
    (process_batch cfg text b text.length).map Prod.fst
      = b.filterMap (chunkAt cfg.chunk_size text) := by
  unfold process_batch chunkAt
  rw [List.map_filterMap]
  exact List.filterMap_congr (fun s hs =>
    congrArg (Option.map Prod.fst) (chunkFrom_take cfg.chunk_size text s (le_listMax0 hs)))

theorem runBatches_take (cfg : ChunkerConfig) (text : List Char) :
    ∀ (bs : List (List Nat)) (acc : List (List Char)),
      (runBatches cfg text text.length bs acc).take cfg.max_chunks
        = (acc ++ bs.flatten.filterMap (chunkAt cfg.chunk_size text)).take cfg.max_chunks := by
  intro bs
  induction bs with
  | nil => intro acc; simp [runBatches]
  | cons b bs ih =>
    intro acc
    simp only [runBatches, List.flatten_cons, List.filterMap_append, process_batch_map_fst]
    split
    next hstop =>
      rw [← List.append_assoc, List.take_append_of_le_length hstop]
    next hstop =>
      rw [ih (acc ++ b.filterMap (chunkAt cfg.chunk_size text)), List.append_assoc]

theorem chunksOfAux_flatten (n : Nat) :
    ∀ (fuel : Nat) (l : List Nat), l.length ≤ fuel → (chunksOfAux n fuel l).flatten = l := by
  intro fuel
  induction fuel with
  | zero =>
    intro l hl
    have : l = [] := List.length_eq_zero.1 (Nat.le_zero.1 hl)
    subst this
    rfl
  | succ fuel ih =>
    intro l hl
    match l with
    | [] => rfl
    | x :: xs =>
      simp only [chunksOfAux, List.flatten_cons]
      rw [ih ((x :: xs).drop (n + 1)) (by simp at hl ⊢; omega)]
      exact List.take_append_drop (n + 1) (x :: xs)

theorem split_into_chunks_eq (cfg : ChunkerConfig) (text : List Char)
    (hb : cfg.batch_size ≠ 0) (hov : cfg.overlap < cfg.chunk_size) :
    split_into_chunks cfg text
      = Except.ok (((startsOf cfg.chunk_size cfg.overlap text.length).filterMap
          (chunkAt cfg.chunk_size text)).take cfg.max_chunks) := by
  unfold split_into_chunks
  rw [if_neg (by omega), if_neg (by omega : ¬ cfg.chunk_size < cfg.overlap), if_neg hb]
  rw [runBatches_take, chunksOfPos, chunksOfAux_flatten _ _ _ (le_refl _), List.nil_append]

theorem length_dropWhileC_le (p : Char → Bool) :
    ∀ (l : List Char), (l.dropWhile p).length ≤ l.length := by
  intro l
  induction l with
  | nil => simp
  | cons a l ih =>
    by_cases h : p a
    · simp only [List.dropWhile_cons, h, if_true, List.length_cons]
      omega
    · simp [List.dropWhile_cons, h]

theorem pyStrip_length_le (l : List Char) : (pyStrip l).length ≤ l.length := by
  have h1 := length_dropWhileC_le pyWs l
  have h2 := length_dropWhileC_le pyWs (l.dropWhile pyWs).reverse
  rw [List.length_reverse] at h2
  unfold pyStrip
  rw [List.length_reverse]
  omega

theorem length_listSlice_le (l : List Char) (s e : Nat) :
    (listSlice l s e).length ≤ e - s := by
  simp only [listSlice, List.length_take, List.length_drop]
  omega

theorem chunkFrom_bound {csize L s : Nat} {t c : List Char} {e : Nat}
    (h : chunkFrom csize t L s = some (c, e)) :
    100 ≤ c.length ∧ c.length ≤ csize := by
  unfold chunkFrom at h
  by_cases hL : L ≤ s
  · simp [hL] at h
  · simp only [if_neg hL] at h
    have he2le : (if min (s + csize) L < L then find_boundary t (min (s + csize) L) s
        else min (s + csize) L) ≤ s + csize := by
      split
      · exact le_trans (find_boundary_le t _ s) (by omega)
      · omega
    generalize hE : (if min (s + csize) L < L then find_boundary t (min (s + csize) L) s
        else min (s + csize) L) = e2 at h he2le
    split at h
    next hcond =>
      simp only [Option.some.injEq, Prod.mk.injEq] at h
      obtain ⟨hc, he⟩ := h
      subst hc
      refine ⟨hcond.2, ?_⟩
      have hs1 := pyStrip_length_le (listSlice t s e2)
      have hs2 := length_listSlice_le t s e2
      omega
    next => exact absurd h (by simp)

/-- Claim C8: every chunk produced by `split_into_chunks` (in fact including
the final one) has length at least 100 and at most `chunk_size + 50`; the
code even guarantees the stronger bound `chunk_size`. -/
theorem c8_chunk_length_bounds (cfg : ChunkerConfig) (text : List Char)
    (cs : List (List Char)) (h : split_into_chunks cfg text = Except.ok cs) :
    ∀ c ∈ cs, 100 ≤ c.length ∧ c.length ≤ cfg.chunk_size + 50 := by
  intro c hc
  by_cases hq : cfg.chunk_size = cfg.overlap
  · simp [split_into_chunks, hq] at h
  · by_cases hb : cfg.batch_size = 0
    · simp [split_into_chunks, hq, hb] at h
    · by_cases hlt : cfg.chunk_size < cfg.overlap
      · simp only [split_into_chunks, if_neg hq, if_pos hlt, if_neg hb,
          chunksOfPos, List.length_nil, chunksOfAux, runBatches, List.take_nil,
          Except.ok.injEq] at h
        subst h
        cases hc
      · have hov : cfg.overlap < cfg.chunk_size := by omega
        rw [split_into_chunks_eq cfg text hb hov] at h
        simp only [Except.ok.injEq] at h
        subst h
        have hc2 := List.mem_of_mem_take hc
        obtain ⟨s, hs, hsome⟩ := List.mem_filterMap.1 hc2
        unfold chunkAt at hsome
        cases hcf : chunkFrom cfg.chunk_size text text.length s with
        | none => rw [hcf] at hsome; simp at hsome
        | some pr =>
          rw [hcf] at hsome
          obtain ⟨c2, e2⟩ := pr
          simp at hsome
          subst hsome
          have hbd := chunkFrom_bound hcf
          omega

/-- Witness for C8 at a concrete text and configuration producing one chunk. -/
theorem c8_witness :
    100 ≤ chunkerSampleText.length ∧ chunkerSampleText.length ≤ 200 + 50 :=
  c8_chunk_length_bounds ⟨200, 50, 10, 4⟩ chunkerSampleText [chunkerSampleText]
    (by rfl) chunkerSampleText (by simp)

/-- Claim C10: the produced chunk sequence does not depend on the (positive)
batch size. -/
theorem c10_batch_size_invariance (text : List Char) (csz ov mx b1 b2 : Nat)
    (h1 : 0 < b1) (h2 : 0 < b2) :
    split_into_chunks ⟨csz, ov, mx, b1⟩ text = split_into_chunks ⟨csz, ov, mx, b2⟩ text := by
  by_cases hq : csz = ov
  · simp [split_into_chunks, hq]
  · by_cases hlt : csz < ov
    · have e1 : ¬ (b1 = 0) := by omega
      have e2 : ¬ (b2 = 0) := by omega
      simp [split_into_chunks, hq, hlt, e1, e2, chunksOfPos, chunksOfAux, runBatches]
    · have hov : ov < csz := by omega
      rw [split_into_chunks_eq ⟨csz, ov, mx, b1⟩ text (by show b1 ≠ 0; omega) hov,
        split_into_chunks_eq ⟨csz, ov, mx, b2⟩ text (by show b2 ≠ 0; omega) hov]

/-- Witness for C10 at a concrete text with batch sizes 1 and 3. -/
theorem c10_witness :
    split_into_chunks ⟨200, 50, 10, 1⟩ chunkerSampleText
      = split_into_chunks ⟨200, 50, 10, 3⟩ chunkerSampleText :=
  c10_batch_size_invariance chunkerSampleText 200 50 10 1 3 (by decide) (by decide)

/-- Amended claim C5: when `overlap` equals `chunk_size` the chunker fails
before producing any chunk — but with Python's `ValueError` from the
zero-step `range`, not a `ConfigError` (no such class exists in the
repository) — and when `overlap` exceeds `chunk_size` it does not fail at
all: the start list is empty and the empty chunk list is returned. -/
theorem c5_overlap_ge_failure (cfg : ChunkerConfig) (text : List Char)
    (hb : 0 < cfg.batch_size) (hov : cfg.chunk_size ≤ cfg.overlap) :
    split_into_chunks cfg text
      = if cfg.chunk_size = cfg.overlap then Except.error PyErr.valueError
        else Except.ok [] := by
  by_cases hq : cfg.chunk_size = cfg.overlap
  · simp [split_into_chunks, hq]
  · have hlt : cfg.chunk_size < cfg.overlap := by omega
    have hbne : ¬ (cfg.batch_size = 0) := by omega
    simp [split_into_chunks, hq, hlt, hbne, chunksOfPos, chunksOfAux, runBatches]

/-- Counterexample to C5 as stated: with `overlap = 900 > chunk_size = 800`
and a non-empty text, `split_into_chunks` raises nothing and simply returns
the empty list. -/
theorem c5_counterexample :
    split_into_chunks ⟨800, 900, 1000, 50⟩ chunkerSampleText = Except.ok []
      ∧ chunkerSampleText ≠ [] := by
  exact ⟨rfl, by decide⟩

/-- Witness for the amended C5 at the boundary case `overlap = chunk_size`. -/
theorem c5_witness :
    split_into_chunks ⟨800, 800, 1000, 50⟩ chunkerSampleText
      = Except.error PyErr.valueError := by
  have h := c5_overlap_ge_failure ⟨800, 800, 1000, 50⟩ chunkerSampleText
    (by decide) (by decide)
  simpa using h

/-! ## Order lemmas for fractions and the argsort -/

theorem Frac.lt_irrefl2 (a : Frac) : ¬ Frac.lt a a := by
  simp [Frac.lt]

theorem Frac.lt_asymm2 {a b : Frac} (h : Frac.lt a b) : ¬ Frac.lt b a := by
  simp only [Frac.lt] at h ⊢
  omega

theorem Frac.lt_trans2 {a b c : Frac} (h1 : Frac.lt a b) (h2 : Frac.lt b c) :
    Frac.lt a c := by
  have hb := b.pos
  have key : (a.num * c.den) * b.den < (c.num * a.den) * b.den := by
    nlinarith [mul_lt_mul_of_pos_right h1 c.pos, mul_lt_mul_of_pos_right h2 a.pos,
      a.pos, c.pos]
  exact lt_of_mul_lt_mul_right key (by omega)

theorem Frac.eqv_refl2 (a : Frac) : Frac.eqv a a := rfl

theorem Frac.eqv_symm2 {a b : Frac} (h : Frac.eqv a b) : Frac.eqv b a := by
  simp only [Frac.eqv] at h ⊢
  omega

theorem Frac.eqv_trans2 {a b c : Frac} (h1 : Frac.eqv a b) (h2 : Frac.eqv b c) :
    Frac.eqv a c := by
  have hb := b.pos
  have key : (a.num * c.den) * b.den = (c.num * a.den) * b.den := by
    have e1 := congrArg (fun x => x * c.den) h1
    have e2 := congrArg (fun x => x * a.den) h2
    simp only [Frac.eqv] at e1 e2
    nlinarith [e1, e2]
  exact mul_right_cancel₀ (by omega) key

theorem Frac.lt_of_lt_of_eqv2 {a b c : Frac} (h1 : Frac.lt a b) (h2 : Frac.eqv b c) :
    Frac.lt a c := by
  have hb := b.pos
  have key : (a.num * c.den) * b.den < (c.num * a.den) * b.den := by
    have e2 := congrArg (fun x => x * a.den) h2
    simp only [Frac.eqv] at e2
    nlinarith [mul_lt_mul_of_pos_right h1 c.pos, e2]
  exact lt_of_mul_lt_mul_right key (by omega)

theorem Frac.lt_of_eqv_of_lt2 {a b c : Frac} (h1 : Frac.eqv a b) (h2 : Frac.lt b c) :
    Frac.lt a c := by
  have hb := b.pos
  have key : (a.num * c.den) * b.den < (c.num * a.den) * b.den := by
    have e1 := congrArg (fun x => x * c.den) h1
    simp only [Frac.eqv] at e1
    nlinarith [mul_lt_mul_of_pos_right h2 a.pos, e1]
  exact lt_of_mul_lt_mul_right key (by omega)

/-- Value order `a ≤ b` on fractions. -/
theorem Frac.lt_or_eqv_of_le {a b : Frac} (h : a.num * b.den ≤ b.num * a.den) :
    Frac.lt a b ∨ Frac.eqv a b := by
  rcases lt_or_eq_of_le h with h2 | h2
  · exact Or.inl h2
  · exact Or.inr h2

theorem Frac.lt_eqv_tri (a b : Frac) : Frac.lt a b ∨ Frac.eqv a b ∨ Frac.lt b a := by
  rcases lt_trichotomy (a.num * b.den) (b.num * a.den) with h | h | h
  · exact Or.inl h
  · exact Or.inr (Or.inl h)
  · exact Or.inr (Or.inr h)

theorem Frac.lt_of_lt_of_le2 {a b c : Frac} (h1 : Frac.lt a b)
    (h2 : b.num * c.den ≤ c.num * b.den) : Frac.lt a c := by
  rcases Frac.lt_or_eqv_of_le h2 with h3 | h3
  · exact Frac.lt_trans2 h1 h3
  · exact Frac.lt_of_lt_of_eqv2 h1 h3

/-- Multiplying a nonnegative fraction by the next keyword boost factor does
not decrease it. -/
theorem Frac.boost_mono {b : Frac} (k : Nat) (hb : 0 ≤ b.num) :
    (b.mul (boostFactor k)).num * (b.mul (boostFactor (k + 1))).den
      ≤ (b.mul (boostFactor (k + 1))).num * (b.mul (boostFactor k)).den := by
  simp only [Frac.mul, boostFactor]
  push_cast
  nlinarith [b.pos, hb]

instance keyLe_total (s : Nat → Frac) : IsTotal Nat (keyLe s) := by
  constructor
  intro i j
  rcases Frac.lt_eqv_tri (s i) (s j) with h | h | h
  · exact Or.inl (Or.inl h)
  · rcases Nat.le_total i j with h2 | h2
    · exact Or.inl (Or.inr ⟨h, h2⟩)
    · exact Or.inr (Or.inr ⟨Frac.eqv_symm2 h, h2⟩)
  · exact Or.inr (Or.inl h)

instance keyLe_trans (s : Nat → Frac) : IsTrans Nat (keyLe s) := by
  constructor
  intro a b c hab hbc
  rcases hab with h1 | ⟨h1, h1i⟩
  · rcases hbc with h2 | ⟨h2, h2i⟩
    · exact Or.inl (Frac.lt_trans2 h1 h2)
    · exact Or.inl (Frac.lt_of_lt_of_eqv2 h1 h2)
  · rcases hbc with h2 | ⟨h2, h2i⟩
    · exact Or.inl (Frac.lt_of_eqv_of_lt2 h1 h2)
    · exact Or.inr ⟨Frac.eqv_trans2 h1 h2, Nat.le_trans h1i h2i⟩

theorem keyLt_asymm {s : Nat → Frac} {i j : Nat} (h1 : keyLt s i j) (h2 : keyLt s j i) :
    False := by
  rcases h1 with h1 | ⟨h1, h1i⟩
  · rcases h2 with h2 | ⟨h2, h2i⟩
    · exact Frac.lt_asymm2 h1 h2
    · exact Frac.lt_irrefl2 _ (Frac.lt_of_lt_of_eqv2 h1 h2)
  · rcases h2 with h2 | ⟨h2, h2i⟩
    · exact Frac.lt_irrefl2 _ (Frac.lt_of_eqv_of_lt2 h1 h2)
    · omega

theorem argsortAsc_pairwise (s : Nat → Frac) (n : Nat) :
    List.Pairwise (keyLe s) (argsortAsc s n) :=
  List.sorted_insertionSort (keyLe s) (List.range n)

theorem argsortAsc_nodup (s : Nat → Frac) (n : Nat) : (argsortAsc s n).Nodup :=
  ((List.perm_insertionSort (keyLe s) (List.range n)).nodup_iff).2 (List.nodup_range n)

theorem argsortAsc_pairwise_keyLt (s : Nat → Frac) (n : Nat) :
    List.Pairwise (keyLt s) (argsortAsc s n) := by
  refine ((argsortAsc_pairwise s n).and (argsortAsc_nodup s n)).imp ?_
  intro a b hab
  rcases hab.1 with h | ⟨h, hle⟩
  · exact Or.inl h
  · exact Or.inr ⟨h, Nat.lt_of_le_of_ne hle hab.2⟩

theorem pyLastSlice_sublist (k : Nat) (l : List Nat) :
    List.Sublist (pyLastSlice k l) l := by
  unfold pyLastSlice
  split
  · exact List.Sublist.refl l
  · exact List.drop_sublist _ l

theorem topIndices_pairwise (q : List Char) (bs : List Frac) (cs : List (List Char))
    (k : Nat) :
    List.Pairwise (fun a b => keyLt (scoreFun q bs cs) b a) (topIndices q bs cs k) := by
  unfold topIndices
  rw [List.pairwise_reverse]
  exact (argsortAsc_pairwise_keyLt (scoreFun q bs cs) cs.length).sublist
    (pyLastSlice_sublist k _)

theorem topIndices_full (q : List Char) (bs : List Frac) (cs : List (List Char)) :
    topIndices q bs cs cs.length
      = (argsortAsc (scoreFun q bs cs) cs.length).reverse := by
  unfold topIndices pyLastSlice
  split
  · rfl
  · simp only [argsortAsc]
    rw [List.length_insertionSort, List.length_range, Nat.sub_self, List.drop_zero]

theorem mem_topIndices_full {q : List Char} {bs : List Frac} {cs : List (List Char)}
    {i : Nat} (hi : i < cs.length) : i ∈ topIndices q bs cs cs.length := by
  rw [topIndices_full, List.mem_reverse]
  exact ((List.perm_insertionSort (keyLe (scoreFun q bs cs)) (List.range cs.length)).mem_iff).2
    (List.mem_range.2 hi)

theorem precedes_of_pairwise_rel {R : Nat → Nat → Prop} {l : List Nat} {a b : Nat}
    (hp : List.Pairwise R l) (hasym : ∀ x y, R x y → R y x → False)
    (ha : a ∈ l) (hb : b ∈ l) (hr : R a b) : precedes a b l := by
  refine ⟨ha, hb, ?_⟩
  have hal := List.indexOf_lt_length.2 ha
  have hbl := List.indexOf_lt_length.2 hb
  have hga := List.indexOf_get hal
  have hgb := List.indexOf_get hbl
  rcases Nat.lt_trichotomy (l.indexOf a) (l.indexOf b) with h | h | h
  · exact h
  · exfalso
    have : a = b := by rw [← hga, ← hgb]; congr 1; exact Fin.ext h
    subst this
    exact hasym a a hr hr
  · exfalso
    have := (List.pairwise_iff_get.1 hp) ⟨l.indexOf b, hbl⟩ ⟨l.indexOf a, hal⟩
      (by simpa using h)
    rw [hga, hgb] at this
    exact hasym a b hr this

theorem rel_of_precedes_pairwise {R : Nat → Nat → Prop} {l : List Nat} {a b : Nat}
    (hp : List.Pairwise R l) (hpre : precedes a b l) : R a b := by
  obtain ⟨ha, hb, hlt⟩ := hpre
  have hal := List.indexOf_lt_length.2 ha
  have hbl := List.indexOf_lt_length.2 hb
  have hga := List.indexOf_get hal
  have hgb := List.indexOf_get hbl
  have := (List.pairwise_iff_get.1 hp) ⟨l.indexOf a, hal⟩ ⟨l.indexOf b, hbl⟩
    (by simpa using hlt)
  rw [hga, hgb] at this
  exact this

theorem getD_set_ne {α : Type} (l : List α) {i j : Nat} (x d : α) (h : i ≠ j) :
    (l.set i x).getD j d = l.getD j d := by
  simp [List.getD_eq_getElem?_getD, List.getElem?_set_ne h]

theorem getD_set_self {α : Type} (l : List α) {i : Nat} (x d : α) (h : i < l.length) :
    (l.set i x).getD i d = x := by
  rw [List.getD_eq_getElem?_getD, List.getElem?_set_self (by simpa using h)]
  rfl

/-- Amended claim C2: on identical final scores the returned top-k ordering
places the chunk with the *higher* original index first: `np.argsort` is
ascending with ties in index order, and the final `[::-1]` reversal flips
that tie order. -/
theorem c2_tie_higher_index_first (q : List Char) (bs : List Frac)
    (cs : List (List Char)) (k i j : Nat) (hlen : bs.length = cs.length)
    (hij : i < j)
    (heq : Frac.eqv (scoreFun q bs cs i) (scoreFun q bs cs j))
    (hi : i ∈ topIndices q bs cs k) (hj : j ∈ topIndices q bs cs k) :
    precedes j i (topIndices q bs cs k) := by
  refine precedes_of_pairwise_rel (topIndices_pairwise q bs cs k)
    (fun x y hx hy => keyLt_asymm hx hy) hj hi ?_
  exact Or.inr ⟨heq, hij⟩

/-- Counterexample to C2 as stated: two distinct chunks with identical final
scores come back with the higher-indexed chunk first, not the lower-indexed
one. -/
theorem c2_counterexample :
    find_relevant_chunks rankQ [fracOne, fracOne] [rankChunk0, rankChunk1] 2
        = [rankChunk1, rankChunk0]
      ∧ Frac.eqv (scoreFun rankQ [fracOne, fracOne] [rankChunk0, rankChunk1] 0)
          (scoreFun rankQ [fracOne, fracOne] [rankChunk0, rankChunk1] 1)
      ∧ rankChunk0 ≠ rankChunk1 := by
  refine ⟨?_, ?_, ?_⟩ <;> decide

/-- Witness for the amended C2 at two concrete equal-score chunks. -/
theorem c2_witness :
    precedes 1 0 (topIndices rankQ [fracOne, fracOne] [rankChunk0, rankChunk1] 2) :=
  c2_tie_higher_index_first rankQ [fracOne, fracOne] [rankChunk0, rankChunk1] 2 0 1
    (by decide) (by decide) (by decide) (by decide) (by decide)

/-- Amended claim C3: adding one additional question keyword to a chunk
whose base cosine score is *nonnegative* (the condition the claim is missing)
never demotes it relative to any other chunk in the relevance ordering of all
chunks (`topIndices` with `k` the chunk count; the returned top-k list is a
prefix of this ordering). -/
theorem c3_boost_preserves_order (q t : List Char) (bs : List Frac)
    (cs : List (List Char)) (i j : Nat) (hlen : bs.length = cs.length)
    (hi : i < cs.length) (hj : j < cs.length)
    (hbase : 0 ≤ (bs.getD i frac0).num)
    (hcount : kwCount q t = kwCount q (cs.getD i []) + 1)
    (hprec : precedes i j (topIndices q bs cs cs.length)) :
    precedes i j (topIndices q bs (cs.set i t) (cs.set i t).length) := by
  have hij : i ≠ j := by
    intro h
    subst h
    exact absurd hprec.2.2 (lt_irrefl _)
  have hrel : keyLt (scoreFun q bs cs) j i :=
    @rel_of_precedes_pairwise (fun a b => keyLt (scoreFun q bs cs) b a) _ _ _
      (topIndices_pairwise q bs cs cs.length) hprec
  have hsj : scoreFun q bs (cs.set i t) j = scoreFun q bs cs j := by
    unfold scoreFun
    rw [getD_set_ne cs t [] hij]
  have hsi : scoreFun q bs (cs.set i t) i
      = (bs.getD i frac0).mul (boostFactor (kwCount q (cs.getD i []) + 1)) := by
    unfold scoreFun
    rw [getD_set_self cs t [] hi, hcount]
  have hle : (scoreFun q bs cs i).num * (scoreFun q bs (cs.set i t) i).den
      ≤ (scoreFun q bs (cs.set i t) i).num * (scoreFun q bs cs i).den := by
    rw [hsi]
    exact Frac.boost_mono _ hbase
  have hrel2 : keyLt (scoreFun q bs (cs.set i t)) j i := by
    rcases hrel with h1 | ⟨h1, h1i⟩
    · left
      rw [hsj]
      exact Frac.lt_of_lt_of_le2 h1 hle
    · rcases Frac.lt_or_eqv_of_le hle with h2 | h2
      · left
        rw [hsj]
        exact Frac.lt_of_eqv_of_lt2 h1 h2
      · right
        refine ⟨?_, h1i⟩
        rw [hsj]
        exact Frac.eqv_trans2 h1 h2
  refine precedes_of_pairwise_rel
    (topIndices_pairwise q bs (cs.set i t) (cs.set i t).length)
    (fun x y hx hy => keyLt_asymm hx hy) ?_ ?_ hrel2
  · exact mem_topIndices_full (by rw [List.length_set]; exact hi)
  · exact mem_topIndices_full (by rw [List.length_set]; exact hj)

/-- Counterexample to C3 as stated: with negative base cosine scores, adding
the keyword `startup` to chunk 0 multiplies its negative score by a larger
factor and demotes it below a chunk lacking the word. -/
theorem c3_counterexample :
    precedes 0 1 (topIndices c3q c3bs [c3chunkA, c3chunkB] 2)
      ∧ kwCount c3q c3chunkA2 = kwCount c3q c3chunkA + 1
      ∧ listContains (lowerL c3chunkB) (("startup").toList) = false
      ∧ ¬ precedes 0 1 (topIndices c3q c3bs [c3chunkA2, c3chunkB] 2) := by
  refine ⟨?_, ?_, ?_, ?_⟩ <;> decide

/-- Witness for the amended C3 at concrete nonnegative-score chunks. -/
theorem c3_witness :
    precedes 1 0 (topIndices c3q c3wbs (c3wchunks.set 1 c3wt)
      (c3wchunks.set 1 c3wt).length) :=
  c3_boost_preserves_order c3q c3wt c3wbs c3wchunks 1 0 (by decide) (by decide)
    (by decide) (by decide) (by decide) (by decide)

/-! ## Lemmas about the answer synthesizer -/

theorem neural_branch_low_none (qa : List Char → List Char → NeuralOut)
    (st1 : QAState) (q : List Char) (rel : List (List Char)) (nres : NeuralOut)
    (hneural : qa q (joinSp rel) = nres)
    (hlow : pyStrip nres.answer = [] ∨ Frac.lt nres.score ⟨3, 10, by decide⟩)
    (hfb : extract_fallback_answer q rel = Except.ok none) :
    neural_branch qa st1 q rel
      = Except.ok (⟨nres.answer, nres.score, joinSp rel⟩, st1, true) := by
  simp only [neural_branch, hneural]
  rw [if_pos hlow, hfb]

theorem neural_branch_low_some (qa : List Char → List Char → NeuralOut)
    (st1 : QAState) (q : List Char) (rel : List (List Char)) (nres : NeuralOut)
    (fb : FallbackOut)
    (hneural : qa q (joinSp rel) = nres)
    (hlow : pyStrip nres.answer = [] ∨ Frac.lt nres.score ⟨3, 10, by decide⟩)
    (hfb : extract_fallback_answer q rel = Except.ok (some fb)) :
    neural_branch qa st1 q rel
      = Except.ok (⟨fb.answer, fb.score, joinSp rel⟩, st1, true) := by
  simp only [neural_branch, hneural]
  rw [if_pos hlow, hfb]

/-- Claim C1: for an intent question (`focus`, `subject`, `about`, `main`),
when the fallback matcher on the first document chunk prepended to the ranked
chunks yields a match, `answer_question` returns that match's answer and
static confidence immediately.  The conclusion does not mention the oracle
`qa` and the invocation flag is `false`: the neural model is never invoked. -/
theorem c1_intent_fallback_shortcircuit (qa : List Char → List Char → NeuralOut)
    (st : QAState) (q : List Char) (bs : List Frac) (c0 : List Char)
    (rest : List (List Char)) (fb : FallbackOut)
    (hint : intentCond q = true)
    (hfb : extract_fallback_answer q (c0 :: find_relevant_chunks q bs (c0 :: rest) 5)
        = Except.ok (some fb)) :
    answer_question qa st q bs (c0 :: rest)
      = Except.ok (⟨fb.answer, fb.score,
          joinSp ((find_relevant_chunks q bs (c0 :: rest) 5).take 2)⟩,
        postAnalyzeState st (c0 :: rest), false) := by
  simp only [answer_question, hint, if_true, hfb]

/-- Witness for C1 at the specification's scenario: the question
`What is the main focus of this book?` with a document opening
`Build Something Great! Fifty Best Tips for High-Tech Startups` produces the
answer `High-Tech Startups` at confidence 0.95 without invoking the oracle. -/
theorem c1_witness :
    answer_question qaLow initQAState c1q c1bs [c1chunk0, c1chunk1]
      = Except.ok (⟨("High-Tech Startups").toList, ⟨95, 100, by decide⟩,
          joinSp ((find_relevant_chunks c1q c1bs [c1chunk0, c1chunk1] 5).take 2)⟩,
        postAnalyzeState initQAState [c1chunk0, c1chunk1], false) :=
  c1_intent_fallback_shortcircuit qaLow initQAState c1q c1bs c1chunk0 [c1chunk1]
    ⟨("High-Tech Startups").toList, ⟨95, 100, by decide⟩⟩ (by decide) (by rfl)

/-- Claim C4 (code bug): any author-rule match makes
`extract_fallback_answer` raise.  The source evaluates
`match.lastgroup > 1`; the author patterns have no named groups, so
`lastgroup` is `None` and comparing it with an `int` raises `TypeError` in
Python 3 instead of returning the 0.9-confidence answer. -/
theorem c4_author_match_raises :
    extract_fallback_answer c4q [c4chunk] = Except.error PyErr.typeError := by
  rfl

/-- Claim C7 (code bug): `analyze_document` does store the literal-title rule
at the head of the instance's `focus_patterns` with confidence 0.98, and the
stored title occurs verbatim in the chunk — yet the fallback matcher, which
only consults its own hardcoded local rule list, still finds nothing for a
subject question over that very chunk. -/
theorem c7_learned_pattern_never_consulted :
    ((analyze_document initQAState c7chunk).focus_patterns.headD
        ([], fracOne)).1 = c7storedPattern
      ∧ ((analyze_document initQAState c7chunk).focus_patterns.headD
          ([], fracOne)).2.num = 98
      ∧ ((analyze_document initQAState c7chunk).focus_patterns.headD
          ([], fracOne)).2.den = 100
      ∧ listContains c7chunk c7title = true
      ∧ extract_fallback_answer c7q [c7chunk] = Except.ok none :=
  ⟨by decide, by decide, by decide, by decide, by rfl⟩

/-- Claim C6: when control reaches the neural path, the neural answer is
empty after trimming or scores below 0.3, and the fallback over the relevant
chunks finds no match, `answer_question` returns the raw neural answer and
score unchanged and raises no exception. -/
theorem c6_low_confidence_passthrough (qa : List Char → List Char → NeuralOut)
    (st : QAState) (q : List Char) (bs : List Frac) (chunks : List (List Char))
    (nres : NeuralOut)
    (hpath : intentCond q = true → chunks ≠ [] ∧
      extract_fallback_answer q
        (chunks.headD [] :: find_relevant_chunks q bs chunks 5) = Except.ok none)
    (hneural : qa q (joinSp (find_relevant_chunks q bs chunks 5)) = nres)
    (hlow : pyStrip nres.answer = [] ∨ Frac.lt nres.score ⟨3, 10, by decide⟩)
    (hfb : extract_fallback_answer q (find_relevant_chunks q bs chunks 5)
        = Except.ok none) :
    answer_question qa st q bs chunks
      = Except.ok (⟨nres.answer, nres.score,
          joinSp (find_relevant_chunks q bs chunks 5)⟩,
        postAnalyzeState st chunks, true) := by
  have hnb := neural_branch_low_none qa (postAnalyzeState st chunks) q
    (find_relevant_chunks q bs chunks 5) nres hneural hlow hfb
  by_cases hic : intentCond q = true
  · obtain ⟨hne, hok⟩ := hpath hic
    obtain ⟨c0, rest, rfl⟩ : ∃ c0 rest, chunks = c0 :: rest := by
      cases chunks with
      | nil => exact absurd rfl hne
      | cons c0 rest => exact ⟨c0, rest, rfl⟩
    simp only [List.headD_cons] at hok
    simp only [answer_question, hic, if_true, hok]
    exact hnb
  · have hic2 : intentCond q = false := by
      cases h : intentCond q
      · rfl
      · exact absurd h hic
    simp only [answer_question, hic2, Bool.false_eq_true, if_false]
    exact hnb

/-- Witness for C6: a question hitting neither fallback branch, an oracle
answering `{answer: "", score: 0.1}`, and the raw pair passed through. -/
theorem c6_witness :
    answer_question qaLow initQAState c6q c6bs c6chunks
      = Except.ok (⟨[], ⟨1, 10, by decide⟩,
          joinSp (find_relevant_chunks c6q c6bs c6chunks 5)⟩,
        postAnalyzeState initQAState c6chunks, true) :=
  c6_low_confidence_passthrough qaLow initQAState c6q c6bs c6chunks
    ⟨[], ⟨1, 10, by decide⟩⟩ (fun h => absurd h (by decide)) rfl (Or.inl rfl) (by rfl)

/-- Claim C9: when the neural result is rejected and the fallback over the
relevant chunks matches, only the answer and confidence are overridden; the
returned context is still the single-space join of all top-k relevant chunks
computed before the neural call. -/
theorem c9_fallback_preserves_context (qa : List Char → List Char → NeuralOut)
    (st : QAState) (q : List Char) (bs : List Frac) (chunks : List (List Char))
    (nres : NeuralOut) (fb : FallbackOut)
    (hpath : intentCond q = true → chunks ≠ [] ∧
      extract_fallback_answer q
        (chunks.headD [] :: find_relevant_chunks q bs chunks 5) = Except.ok none)
    (hneural : qa q (joinSp (find_relevant_chunks q bs chunks 5)) = nres)
    (hlow : pyStrip nres.answer = [] ∨ Frac.lt nres.score ⟨3, 10, by decide⟩)
    (hfb : extract_fallback_answer q (find_relevant_chunks q bs chunks 5)
        = Except.ok (some fb)) :
    answer_question qa st q bs chunks
      = Except.ok (⟨fb.answer, fb.score,
          joinSp (find_relevant_chunks q bs chunks 5)⟩,
        postAnalyzeState st chunks, true) := by
  have hnb := neural_branch_low_some qa (postAnalyzeState st chunks) q
    (find_relevant_chunks q bs chunks 5) nres fb hneural hlow hfb
  by_cases hic : intentCond q = true
  · obtain ⟨hne, hok⟩ := hpath hic
    obtain ⟨c0, rest, rfl⟩ : ∃ c0 rest, chunks = c0 :: rest := by
      cases chunks with
      | nil => exact absurd rfl hne
      | cons c0 rest => exact ⟨c0, rest, rfl⟩
    simp only [List.headD_cons] at hok
    simp only [answer_question, hic, if_true, hok]
    exact hnb
  · have hic2 : intentCond q = false := by
      cases h : intentCond q
      · rfl
      · exact absurd h hic
    simp only [answer_question, hic2, Bool.false_eq_true, if_false]
    exact hnb

/-- Witness for C9: the pre-neural fallback finds nothing, the oracle scores
0.1, the post-neural fallback matches `book is about ...` in the third
ranked chunk, and the context keeps all five ranked chunks. -/
theorem c9_witness :
    answer_question qaLow initQAState c9q c9bs c9chunks
      = Except.ok (⟨("Winning startup ideas today").toList, ⟨7, 10, by decide⟩,
          joinSp (find_relevant_chunks c9q c9bs c9chunks 5)⟩,
        postAnalyzeState initQAState c9chunks, true) :=
  c9_fallback_preserves_context qaLow initQAState c9q c9bs c9chunks
    ⟨[], ⟨1, 10, by decide⟩⟩ ⟨("Winning startup ideas today").toList, ⟨7, 10, by decide⟩⟩
    (fun _ => ⟨by decide, by rfl⟩) rfl (Or.inl rfl) (by rfl)
